import Mathlib

set_option linter.unusedSectionVars false

/-!
Shallow embedding of the calvin month-view compositor, translated from the Go
sources `internal/render/render.go` (which contains two variants of
`PrepareMonthData`), `internal/render/graphics.go`, `internal/weather/weather.go`
and `internal/calendar/calendar.go`.

Modelling conventions:

* `GoTime` models Go `time.Time` in a single fixed location as a calendar day
  number `day : ℤ` plus the second-of-day `sec : ℕ`.  Days are counted so that
  day `0` is a Sunday, hence `t.Weekday()` is `day % 7`, matching Go's
  numbering `Sunday = 0 … Saturday = 6`.  `time.Date(Y, M, D, 0, 0, 0, 0, loc)`
  applied to the fields of `t` — stripping the time of day — is `⟨t.day, 0⟩`;
  `t.Before u` is lexicographic on `(day, sec)`; `t.Hour()` is `sec / 3600`;
  two times have equal `(Year, Month, Day)` (or equal `(Year, YearDay)`) iff
  they have the same `day`.
* Degrees Celsius (Go `float64`) are modelled as `ℚ`.
* Go month arithmetic enters `PrepareMonthData` only through the first day of
  the current month and the month length; the embedding takes those as explicit
  parameters, and the date-formatting helpers of the Go `time` package
  (`Format "2"`, `Format "Jan"`, `Month()`, the month name) are bundled as an
  abstract `CalendarCtx` supplied identically to both variants.
-/

/-- Go `time.Time` (single location): calendar day number and second of day. -/
structure GoTime where
  day : Int
  sec : Nat
deriving DecidableEq, Repr

/-- Go `t.Before(u)`: lexicographic comparison of instants. -/
def GoTime.before (t u : GoTime) : Bool :=
  t.day < u.day || (t.day == u.day && t.sec < u.sec)

/-- Go `t.Hour()`. -/
def GoTime.hour (t : GoTime) : Nat := t.sec / 3600

/-- Go `t.Minute()`. -/
def GoTime.minute (t : GoTime) : Nat := t.sec % 3600 / 60

/-- Go `t.Weekday()` (`Sunday = 0 … Saturday = 6`); day 0 of the epoch is a Sunday. -/
def goWeekday (d : Int) : Int := d % 7

/-- `calendar.Event` (calendar.go). -/
structure Event where
  summary : String
  description : String
  location : String
  start : GoTime
  endTime : GoTime
  allDay : Bool
  calendarName : String
deriving DecidableEq, Repr

/-- The `less` closure passed to `sort.Slice` by `calendar.SortEvents`:
all-day events first, then by ascending start time. -/
def lessEvent (x y : Event) : Bool :=
  if x.allDay && !y.allDay then true
  else if !x.allDay && y.allDay then false
  else x.start.before y.start

/-- `weather.HourlyForecast`. -/
structure HourlyForecast where
  time : GoTime
  temperature : ℚ
  weatherCode : Int
  precipitation : ℚ
  windSpeed : ℚ
deriving DecidableEq, Repr

/-- `weather.Forecast`. -/
structure Forecast where
  hourly : List HourlyForecast
deriving DecidableEq, Repr

/-- The samples accumulated by `Forecast.GetDayTemperature`: same calendar date
as `date` and hour of day in `[12, 18)`. -/
def Forecast.daySamples (f : Forecast) (date : GoTime) : List HourlyForecast :=
  f.hourly.filter (fun h => h.time.day == date.day && (12 ≤ h.time.hour && h.time.hour < 18))

/-- The samples accumulated by `Forecast.GetNightTemperature`: same calendar
date as `date` and hour of day in `[0, 6)`. -/
def Forecast.nightSamples (f : Forecast) (date : GoTime) : List HourlyForecast :=
  f.hourly.filter (fun h => h.time.day == date.day && h.time.hour < 6)

/-- `Forecast.GetDayTemperature` (weather.go): average temperature of the day
window samples, `0` when the window is empty. -/
def Forecast.getDayTemperature (f : Forecast) (date : GoTime) : ℚ :=
  let s := f.daySamples date
  if s.length = 0 then 0 else (s.map (·.temperature)).sum / s.length

/-- `Forecast.GetNightTemperature` (weather.go). -/
def Forecast.getNightTemperature (f : Forecast) (date : GoTime) : ℚ :=
  let s := f.nightSamples date
  if s.length = 0 then 0 else (s.map (·.temperature)).sum / s.length

/-- Round to the nearest integer, ties to even — the rounding of Go's `%.0f` verb. -/
def roundHalfEven (q : ℚ) : Int :=
  let f := ⌊q⌋
  let r := q - f
  if r < 1/2 then f
  else if 1/2 < r then f + 1
  else if f % 2 = 0 then f else f + 1

/-- `fmt.Sprintf("%.0f°", q)`; Go prints `-0` for negative values that round to zero. -/
def formatTemp (q : ℚ) : String :=
  (if q < 0 ∧ roundHalfEven q = 0 then "-0" else toString (roundHalfEven q)) ++ "°"

/-- The per-day temperature block shared verbatim by both `PrepareMonthData`
variants (render.go): strings are produced only when the weather data is
present, the date lies in `[today, today+8)`, and at least one of the two
computed values is nonzero. -/
def tempStrings (weatherData : Option Forecast) (now : GoTime) (currentDate : GoTime) :
    String × String :=
  let today : GoTime := ⟨now.day, 0⟩
  let eightDaysFromNow : GoTime := ⟨today.day + 8, 0⟩
  match weatherData with
  | none => ("", "")
  | some f =>
    if (currentDate == today || today.before currentDate) && currentDate.before eightDaysFromNow
    then
      let dayTempValue := f.getDayTemperature currentDate
      let nightTempValue := f.getNightTemperature currentDate
      if dayTempValue ≠ 0 ∨ nightTempValue ≠ 0 then
        (formatTemp dayTempValue, formatTemp nightTempValue)
      else ("", "")
    else ("", "")

/-- The `"..."` literal of `truncateText` (graphics.go), as a list of atoms. -/
def dots : List Char := ['.', '.', '.']

/-- The descending scan of `truncateText` (graphics.go): try byte-prefix lengths
`i, i-1, …, 1`, return the first prefix that fits with the ellipsis appended,
and the bare ellipsis if none does.  `m` is the abstract font measurement
`dc.MeasureString`. -/
def truncScan (m : List Char → ℚ) (text : List Char) (maxWidth : ℚ) : Nat → List Char
  | 0 => dots
  | i + 1 =>
    if m (text.take (i + 1) ++ dots) ≤ maxWidth then text.take (i + 1) ++ dots
    else truncScan m text maxWidth i

/-- `truncateText` (graphics.go), with the string and the measurement function
made explicit. -/
def truncateText (m : List Char → ℚ) (text : List Char) (maxWidth : ℚ) : List Char :=
  if m text ≤ maxWidth then text
  else if maxWidth ≤ m dots then dots
  else truncScan m text maxWidth text.length

/-- The `weekday == 0 → 7` remapping applied to `int(t.Weekday())` in
`PrepareMonthData`. -/
def remapWeekday (w : Int) : Int := if w = 0 then 7 else w

/-- `startDate` of the grid (render.go): back to the Monday of the week
containing the first of the month. -/
def gridStart (firstOfMonth : Int) : Int :=
  firstOfMonth - (remapWeekday (goWeekday firstOfMonth) - 1)

/-- `endDate` of the grid (render.go): forward to the Sunday of the week
containing the last of the month. -/
def gridEnd (lastOfMonth : Int) : Int :=
  lastOfMonth + (7 - remapWeekday (goWeekday lastOfMonth))

/-- The week-building loop shared by both `PrepareMonthData` variants: while
`currentDate ≤ endDate`, emit a row of exactly 7 cells (the inner loop always
runs 7 times) and advance by 7 days.  The per-cell construction is abstracted
as `dayFn`, which each variant instantiates with its own `DayData` builder. -/
def buildWeeksLoop {α : Type} (dayFn : Int → α) (endDate : Int) : Nat → Int → List (List α)
  | 0, _ => []
  | fuel + 1, cur =>
    if cur ≤ endDate then
      ((List.range 7).map (fun (i : Nat) => dayFn (cur + (i : Int)))) ::
        buildWeeksLoop dayFn endDate fuel (cur + 7)
    else []

/-- The week-building loop, entered at the grid's start date.  The fuel
`(endDate + 1 - cur).toNat` (the span's day count) always exceeds the week
count, so the loop stops only on `currentDate > endDate`, as in the source. -/
def buildWeeksWith {α : Type} (dayFn : Int → α) (endDate : Int) (cur : Int) : List (List α) :=
  buildWeeksLoop dayFn endDate ((endDate + 1 - cur).toNat) cur

/-- The consecutive dates `s, s+1, …, e`. -/
def dateRange (s e : Int) : List Int :=
  (List.range (e + 1 - s).toNat).map (fun (i : Nat) => s + (i : Int))

/-!
### The Go standard library sort behind `sort.Slice`

`calendar.SortEvents` sorts via `sort.Slice(sorted, less)`.  `sort.Slice` is
Go's pattern-defeating quicksort (`pdqsort_func` and its helpers from the
`sort` package, Go ≥ 1.19), translated here operation for operation: slices
become `List α` with index reads (`idx`) and `data.Swap` (`swapL`), and the
unstructured recursion/looping of `pdqsort_func` carries explicit fuel (the
real recursion always terminates, so the top-level call supplies enough fuel;
every helper only ever rearranges the list by swaps).
-/

namespace GoSort

variable {α : Type} [Inhabited α]

/-- Read `data[i]` (always in bounds in real executions). -/
def idx (l : List α) (i : Nat) : α := l.getD i default

/-- `data.Swap(i, j)` (always in bounds in real executions). -/
def swapL (l : List α) (i j : Nat) : List α :=
  if i < l.length ∧ j < l.length then (l.set i (idx l j)).set j (idx l i) else l

/-- Inner loop of `insertionSort_func`: bubble the element at `j` leftwards
while `j > a && data.Less(j, j-1)`. -/
def insertInner (less : α → α → Bool) (a : Nat) (l : List α) : Nat → List α
  | 0 => l
  | j + 1 =>
    if a < j + 1 ∧ less (idx l (j + 1)) (idx l j) = true then
      insertInner less a (swapL l (j + 1) j) j
    else l

/-- Outer loop of `insertionSort_func`: `for i := a + 1; i < b; i++`.  The
fuel bounds the iteration count; the caller passes `b - a`, which always
suffices, so the fuel-0 case is never the reason the loop stops. -/
def insertionSortLoop (less : α → α → Bool) (a b : Nat) : Nat → List α → Nat → List α
  | 0, l, _ => l
  | fuel + 1, l, i =>
    if i < b then insertionSortLoop less a b fuel (insertInner less a l i) (i + 1) else l

/-- `insertionSort_func(data, a, b)`. -/
def insertionSortGo (less : α → α → Bool) (l : List α) (a b : Nat) : List α :=
  insertionSortLoop less a b (b - a) l (a + 1)

/-- Loop of `siftDown_func` (fuelled; the root at least doubles every
iteration, so fuel `hi + 1` always suffices). -/
def siftDownLoop (less : α → α → Bool) (hi first : Nat) : Nat → List α → Nat → List α
  | 0, l, _ => l
  | fuel + 1, l, root =>
    if 2 * root + 1 < hi then
    if 2 * root + 2 < hi ∧
        less (idx l (first + (2 * root + 1))) (idx l (first + (2 * root + 2))) = true then
      if less (idx l (first + root)) (idx l (first + (2 * root + 2))) = true then
        siftDownLoop less hi first fuel (swapL l (first + root) (first + (2 * root + 2)))
          (2 * root + 2)
      else l
    else
      if less (idx l (first + root)) (idx l (first + (2 * root + 1))) = true then
        siftDownLoop less hi first fuel (swapL l (first + root) (first + (2 * root + 1)))
          (2 * root + 1)
      else l
    else l

/-- First loop of `heapSort_func`: `for i := (hi-1)/2; i >= 0; i--`. -/
def heapSortBuild (less : α → α → Bool) (hi first : Nat) (l : List α) (i : Nat) : List α :=
  match i with
  | 0 => siftDownLoop less hi first (hi + 1) l 0
  | i + 1 => heapSortBuild less hi first (siftDownLoop less hi first (hi + 1) l (i + 1)) i

/-- Second loop of `heapSort_func`: `for i := hi - 1; i >= 0; i--`. -/
def heapSortSink (less : α → α → Bool) (first : Nat) (l : List α) (i : Nat) : List α :=
  match i with
  | 0 => siftDownLoop less 0 first 1 (swapL l first (first + 0)) 0
  | i + 1 =>
    heapSortSink less first
      (siftDownLoop less (i + 1) first (i + 2) (swapL l first (first + (i + 1))) 0) i

/-- `heapSort_func(data, a, b)`. -/
def heapSortGo (less : α → α → Bool) (l : List α) (a b : Nat) : List α :=
  let first := a
  let hi := b - a
  let l1 := heapSortBuild less hi first l ((hi - 1) / 2)
  if hi = 0 then l1 else heapSortSink less first l1 (hi - 1)

/-- `for i <= j && data.Less(i, a) { i++ }` (scan of `partition_func`;
fuelled, every caller passes fuel exceeding `j + 1 - i`). -/
def scanUp (less : α → α → Bool) (l : List α) (a j : Nat) : Nat → Nat → Nat
  | 0, i => i
  | fuel + 1, i =>
    if i ≤ j ∧ less (idx l i) (idx l a) = true then scanUp less l a j fuel (i + 1) else i

/-- `for i <= j && !data.Less(j, a) { j-- }` (scan of `partition_func`;
fuelled).  Every call has `i ≥ a + 1 ≥ 1`, so the extra `1 ≤ j` conjunct
(needed because `j` is a `Nat` here while Go lets it reach `-1`) never
changes the result. -/
def scanDown (less : α → α → Bool) (l : List α) (a i : Nat) : Nat → Nat → Nat
  | 0, j => j
  | fuel + 1, j =>
    if 1 ≤ j ∧ i ≤ j ∧ ¬ less (idx l j) (idx l a) = true then scanDown less l a i fuel (j - 1)
    else j

/-- The swapping loop of `partition_func` (fuelled; the real loop terminates
because `j - i` shrinks every iteration). -/
def partitionLoop (less : α → α → Bool) (a b : Nat) :
    Nat → List α → Nat → Nat → List α × Nat
  | 0, l, _, j => (l, j)
  | fuel + 1, l, i, j =>
    let i1 := scanUp less l a j (b + 2) i
    let j1 := scanDown less l a i1 (b + 2) j
    if i1 > j1 then (l, j1)
    else partitionLoop less a b fuel (swapL l i1 j1) (i1 + 1) (j1 - 1)

/-- `partition_func(data, a, b, pivot)`: returns the data, the new pivot
position and `alreadyPartitioned`. -/
def partitionGo (less : α → α → Bool) (l : List α) (a b pivot : Nat) :
    List α × Nat × Bool :=
  let l1 := swapL l a pivot
  let i := scanUp less l1 a (b - 1) (b + 2) (a + 1)
  let j := scanDown less l1 a i (b + 2) (b - 1)
  if i > j then (swapL l1 j a, j, true)
  else
    let l2 := swapL l1 i j
    let pl := partitionLoop less a b b l2 (i + 1) (j - 1)
    (swapL pl.1 pl.2 a, pl.2, false)

/-- `for i <= j && !data.Less(a, i) { i++ }` (scan of `partitionEqual_func`;
fuelled). -/
def scanUpEq (less : α → α → Bool) (l : List α) (a j : Nat) : Nat → Nat → Nat
  | 0, i => i
  | fuel + 1, i =>
    if i ≤ j ∧ ¬ less (idx l a) (idx l i) = true then scanUpEq less l a j fuel (i + 1) else i

/-- `for i <= j && data.Less(a, j) { j-- }` (scan of `partitionEqual_func`;
fuelled); as in `scanDown`, the `1 ≤ j` conjunct is vacuous at every real
call. -/
def scanDownEq (less : α → α → Bool) (l : List α) (a i : Nat) : Nat → Nat → Nat
  | 0, j => j
  | fuel + 1, j =>
    if 1 ≤ j ∧ i ≤ j ∧ less (idx l a) (idx l j) = true then scanDownEq less l a i fuel (j - 1)
    else j

/-- The swapping loop of `partitionEqual_func` (fuelled), returning the data
and the final `i`. -/
def partitionEqualLoop (less : α → α → Bool) (a b : Nat) :
    Nat → List α → Nat → Nat → List α × Nat
  | 0, l, i, _ => (l, i)
  | fuel + 1, l, i, j =>
    let i1 := scanUpEq less l a j (b + 2) i
    let j1 := scanDownEq less l a i1 (b + 2) j
    if i1 > j1 then (l, i1)
    else partitionEqualLoop less a b fuel (swapL l i1 j1) (i1 + 1) (j1 - 1)

/-- `partitionEqual_func(data, a, b, pivot)`: returns the data and `newpivot`. -/
def partitionEqualGo (less : α → α → Bool) (l : List α) (a b pivot : Nat) :
    List α × Nat :=
  let l1 := swapL l a pivot
  partitionEqualLoop less a b b l1 (a + 1) (b - 1)

/-- `for i < b && !data.Less(i, i-1) { i++ }` (scan of
`partialInsertionSort_func`; fuelled). -/
def scanSorted (less : α → α → Bool) (b : Nat) (l : List α) : Nat → Nat → Nat
  | 0, i => i
  | fuel + 1, i =>
    if i < b ∧ ¬ less (idx l i) (idx l (i - 1)) = true then scanSorted less b l fuel (i + 1)
    else i

/-- Left shifting loop of `partialInsertionSort_func`: `for j := i-1; j >= 1; j--`. -/
def shiftLeft (less : α → α → Bool) (l : List α) : Nat → List α
  | 0 => l
  | j + 1 =>
    if less (idx l (j + 1)) (idx l j) = true then shiftLeft less (swapL l (j + 1) j) j
    else l

/-- Right shifting loop of `partialInsertionSort_func`: `for j := i+1; j < b; j++`
(fuelled). -/
def shiftRight (less : α → α → Bool) (b : Nat) : Nat → List α → Nat → List α
  | 0, l, _ => l
  | fuel + 1, l, j =>
    if j < b ∧ less (idx l j) (idx l (j - 1)) = true then
      shiftRight less b fuel (swapL l j (j - 1)) (j + 1)
    else l

/-- The `maxSteps = 5` loop of `partialInsertionSort_func`. -/
def partialInsertLoop (less : α → α → Bool) (a b : Nat) (l : List α) (i : Nat) :
    Nat → List α × Bool
  | 0 => (l, false)
  | steps + 1 =>
    let i1 := scanSorted less b l (b + 1) i
    if i1 = b then (l, true)
    else if b - a < 50 then (l, false)
    else
      let l1 := swapL l i1 (i1 - 1)
      let l2 := if 2 ≤ i1 - a then shiftLeft less l1 (i1 - 1) else l1
      let l3 := if 2 ≤ b - i1 then shiftRight less b (b + 1) l2 (i1 + 1) else l2
      partialInsertLoop less a b l3 i1 steps

/-- `partialInsertionSort_func(data, a, b)`: partially sorts and reports whether
the range ended up sorted. -/
def partialInsertionSortGo (less : α → α → Bool) (l : List α) (a b : Nat) : List α × Bool :=
  partialInsertLoop less a b l (a + 1) 5

/-- The sortedness hints of the Go `sort` package. -/
inductive SortHint where
  | unknown
  | increasing
  | decreasing
deriving DecidableEq, Repr

/-- `order2_func`: order two positions by their elements, counting swaps. -/
def order2 (less : α → α → Bool) (l : List α) (a b swaps : Nat) : Nat × Nat × Nat :=
  if less (idx l b) (idx l a) = true then (b, a, swaps + 1) else (a, b, swaps)

/-- `median_func`: position of the median element of three, counting swaps. -/
def medianPos (less : α → α → Bool) (l : List α) (a b c swaps : Nat) : Nat × Nat :=
  let (a1, b1, s1) := order2 less l a b swaps
  let (b2, _, s2) := order2 less l b1 c s1
  let (_, b3, s3) := order2 less l a1 b2 s2
  (b3, s3)

/-- `medianAdjacent_func`: median of `i-1, i, i+1`. -/
def medianAdjacent (less : α → α → Bool) (l : List α) (i swaps : Nat) : Nat × Nat :=
  medianPos less l (i - 1) i (i + 1) swaps

/-- `choosePivot_func(data, a, b)`. -/
def choosePivotGo (less : α → α → Bool) (l : List α) (a b : Nat) : Nat × SortHint :=
  let len := b - a
  let i := a + len / 4 * 1
  let j := a + len / 4 * 2
  let k := a + len / 4 * 3
  let (j1, swaps) :=
    if 8 ≤ len then
      if 50 ≤ len then
        let (i1, s1) := medianAdjacent less l i 0
        let (j1, s2) := medianAdjacent less l j s1
        let (k1, s3) := medianAdjacent less l k s2
        medianPos less l i1 j1 k1 s3
      else medianPos less l i j k 0
    else (j, 0)
  if swaps = 0 then (j1, SortHint.increasing)
  else if swaps = 12 then (j1, SortHint.decreasing)
  else (j1, SortHint.unknown)

/-- The loop of `reverseRange_func` (fuelled). -/
def reverseLoop : Nat → List α → Nat → Nat → List α
  | 0, l, _, _ => l
  | fuel + 1, l, i, j => if i < j then reverseLoop fuel (swapL l i j) (i + 1) (j - 1) else l

/-- `reverseRange_func(data, a, b)`. -/
def reverseRangeGo (l : List α) (a b : Nat) : List α :=
  reverseLoop (b + 1) l a (b - 1)

/-- One step of the `xorshift` generator of the `sort` package (`uint64`). -/
def xorshiftNext (r : Nat) : Nat :=
  let r1 := (r ^^^ (r <<< 13)) % 2 ^ 64
  let r2 := (r1 ^^^ (r1 >>> 7)) % 2 ^ 64
  (r2 ^^^ (r2 <<< 17)) % 2 ^ 64

/-- `bits.Len` (number of bits of a `uint`). -/
def bitsLen (n : Nat) : Nat := if n = 0 then 0 else n.log2 + 1

/-- `nextPowerOfTwo` of the `sort` package. -/
def nextPowerOfTwo (length : Nat) : Nat := 1 <<< bitsLen length

/-- One of the three pattern-breaking swaps of `breakPatterns_func`. -/
def breakOne (l : List α) (a length modulus idx0 : Nat) (r : Nat) (i : Nat) : List α :=
  let other := r &&& (modulus - 1)
  let other1 := if other ≥ length then other - length else other
  swapL l (idx0 - 1 + i) (a + other1)

/-- `breakPatterns_func(data, a, b)` (three unrolled iterations of its loop). -/
def breakPatternsGo (l : List α) (a b : Nat) : List α :=
  let length := b - a
  if 8 ≤ length then
    let modulus := nextPowerOfTwo length
    let idx0 := a + length / 4 * 2 - 1
    let r1 := xorshiftNext length
    let l1 := breakOne l a length modulus idx0 r1 0
    let r2 := xorshiftNext r1
    let l2 := breakOne l1 a length modulus idx0 r2 1
    let r3 := xorshiftNext r2
    breakOne l2 a length modulus idx0 r3 2
  else l

/-- The pre-partition phase of one `pdqsort_func` loop iteration: the optional
`breakPatterns` (with `limit--`), `choosePivot`, the `reverseRange` on a
decreasing hint, and the optional `partialInsertionSort`.  Returns the data,
the updated `limit`, the pivot position, and whether the loop returns early
because `partialInsertionSort` finished the job. -/
def pdqStage (less : α → α → Bool) (l : List α) (a b limit : Nat)
    (wasBalanced wasPartitioned : Bool) : List α × Nat × Nat × Bool :=
  let st := if !wasBalanced then (breakPatternsGo l a b, limit - 1) else (l, limit)
  let pv := choosePivotGo less st.1 a b
  let st2 :=
    if pv.2 = SortHint.decreasing then
      (reverseRangeGo st.1 a b, (b - 1) - (pv.1 - a), SortHint.increasing)
    else (st.1, pv.1, pv.2)
  let st3 :=
    if wasBalanced ∧ wasPartitioned ∧ st2.2.2 = SortHint.increasing then
      partialInsertionSortGo less st2.1 a b
    else (st2.1, false)
  (st3.1, st.2, st2.2.1, st3.2)

/-- `pdqsort_func(data, a, b, limit)`.  The mutable loop state
(`a`, `b`, `limit`, `wasBalanced`, `wasPartitioned`) is threaded explicitly;
a `continue` of the Go loop is a tail call that keeps the current flags, while
the recursive `pdqsort_func` call on the shorter side starts a fresh
invocation with both flags `true`.  `fuel` bounds the loop/recursion depth. -/
def pdqsortF (less : α → α → Bool) :
    Nat → List α → Nat → Nat → Nat → Bool → Bool → List α
  | 0, l, _, _, _, _, _ => l
  | fuel + 1, l, a, b, limit, wasBalanced, wasPartitioned =>
    if b - a ≤ 12 then insertionSortGo less l a b
    else if limit = 0 then heapSortGo less l a b
    else
      let ps := pdqStage less l a b limit wasBalanced wasPartitioned
      if ps.2.2.2 then ps.1
      else if 0 < a ∧ ¬ less (idx ps.1 (a - 1)) (idx ps.1 ps.2.2.1) = true then
        let pe := partitionEqualGo less ps.1 a b ps.2.2.1
        pdqsortF less fuel pe.1 pe.2 b ps.2.1 wasBalanced wasPartitioned
      else
        let pt := partitionGo less ps.1 a b ps.2.2.1
        let wasBalanced1 := decide (min (pt.2.1 - a) (b - pt.2.1) ≥ (b - a) / 8)
        if pt.2.1 - a < b - pt.2.1 then
          pdqsortF less fuel (pdqsortF less fuel pt.1 a pt.2.1 ps.2.1 true true)
            (pt.2.1 + 1) b ps.2.1 wasBalanced1 pt.2.2
        else
          pdqsortF less fuel (pdqsortF less fuel pt.1 (pt.2.1 + 1) b ps.2.1 true true)
            a pt.2.1 ps.2.1 wasBalanced1 pt.2.2

/-- `sort.Slice(x, less)`: `limit := bits.Len(uint(length))`, then
`pdqsort_func(lessSwap, 0, length, limit)`.  The fuel `2*length + 64` exceeds
the loop/recursion depth of any real execution. -/
def sortSliceGo (less : α → α → Bool) (l : List α) : List α :=
  pdqsortF less (2 * l.length + 64) l 0 l.length (bitsLen l.length) true true

end GoSort

instance : Inhabited GoTime := ⟨⟨0, 0⟩⟩

instance : Inhabited Event := ⟨⟨"", "", "", default, default, false, ""⟩⟩

/-- `calendar.SortEvents` (calendar.go): copy the slice, then
`sort.Slice(sorted, less)` with all-day events first, then ascending start. -/
def sortEvents (events : List Event) : List Event :=
  GoSort.sortSliceGo lessEvent events

/-- `calendar.SortEvents` with both buffers made explicit: the pair is
(the input slice after the call, the returned slice).  The source writes only
to the fresh copy `sorted` (`copy(sorted, events)`; all `sort.Slice` swaps
target `sorted`), so the input buffer is returned unchanged. -/
def sortEventsBuffers (events : List Event) : List Event × List Event :=
  let sorted := events
  (events, GoSort.sortSliceGo lessEvent sorted)

/-!
### The two `PrepareMonthData` variants

render.go contains two variants of `PrepareMonthData`.  They share the grid
construction, the per-day sort/cap/convert logic and the temperature block
verbatim; they differ in how `eventsByDate` is built (the first buckets each
event only under its start date; the second expands the event over every date
it spans, with the all-day exclusive-end correction) and in the `IsPast` field
that only the second variant's `DayData` carries.
-/

/-- The event start date used as bucket key: the calendar date of `event.Start`. -/
def eventStartDate (e : Event) : Int := e.start.day

/-- The corrected end date of the second variant's expansion loop: for all-day
events with `endDate.After(startDate)`, the provider end date is exclusive and
one day is subtracted. -/
def eventEndDateCorrected (e : Event) : Int :=
  if e.allDay = true ∧ e.start.day < e.endTime.day then e.endTime.day - 1 else e.endTime.day

/-- `eventsByDate` of the first variant: each event is appended only under the
date key of its start instant, in input order. -/
def eventsByDateV1 (events : List Event) (d : Int) : List Event :=
  events.filter (fun e => e.start.day == d)

/-- `eventsByDate` of the second variant: each event is appended, in input
order, under every date from its (stripped) start date to its corrected end
date inclusive. -/
def eventsByDateV2 (events : List Event) (d : Int) : List Event :=
  events.filter (fun e => decide (e.start.day ≤ d ∧ d ≤ eventEndDateCorrected e))

/-- `dayEvents` after `SortEvents` and the `maxEventsPerDay` cap (first variant). -/
def dayEventsV1 (events : List Event) (maxEventsPerDay : Nat) (d : Int) : List Event :=
  let dayEvents := sortEvents (eventsByDateV1 events d)
  if dayEvents.length > maxEventsPerDay then dayEvents.take maxEventsPerDay else dayEvents

/-- `dayEvents` after `SortEvents` and the `maxEventsPerDay` cap (second variant). -/
def dayEventsV2 (events : List Event) (maxEventsPerDay : Nat) (d : Int) : List Event :=
  let dayEvents := sortEvents (eventsByDateV2 events d)
  if dayEvents.length > maxEventsPerDay then dayEvents.take maxEventsPerDay else dayEvents

/-- `render.EventData`. -/
structure EventData where
  time : String
  summary : String
  allDay : Bool
deriving DecidableEq, Repr

/-- Two-digit zero padding of Go's `15` / `04` layout components. -/
def pad2 (n : Nat) : String := if n < 10 then "0" ++ toString n else toString n

/-- Go `t.Format("15:04")`. -/
def formatHM (t : GoTime) : String := pad2 t.hour ++ ":" ++ pad2 t.minute

/-- The `EventData` conversion shared by both variants: time is only set for
timed events. -/
def toEventData (e : Event) : EventData :=
  { time := if !e.allDay then formatHM e.start else ""
    summary := e.summary
    allDay := e.allDay }

/-- The civil-calendar data `PrepareMonthData` obtains from `now` and the Go
`time` package, bundled abstractly: the day number of the first of the current
month, the month length (`firstOfMonth.AddDate(0, 1, -1)` is
`firstOfMonth + monthLen - 1`), the strings `currentMonth.String()` /
`now.Year()`, and the per-date formatters `Month()`, `Format("2")`,
`Format("Jan")`.  Both variants call exactly the same library functions, so an
identical `CalendarCtx` is supplied to both. -/
structure CalendarCtx where
  firstOfMonth : Int
  monthLen : Nat
  monthName : String
  year : Int
  monthOf : Int → Int
  dayNumOf : Int → String
  monthShortOf : Int → String

/-- `render.DayData` of the first variant (no `IsPast` field). -/
structure DayDataV1 where
  date : Int
  dayNum : String
  monthShort : String
  isToday : Bool
  isWeekend : Bool
  isCurrentMonth : Bool
  dayTemp : String
  nightTemp : String
  events : List EventData
deriving DecidableEq, Repr

/-- `render.DayData` of the second variant (with `IsPast`). -/
structure DayDataV2 where
  date : Int
  dayNum : String
  monthShort : String
  isToday : Bool
  isPast : Bool
  isWeekend : Bool
  isCurrentMonth : Bool
  dayTemp : String
  nightTemp : String
  events : List EventData
deriving DecidableEq, Repr

/-- One day cell of the first variant's week loop. -/
def buildDayV1 (cal : CalendarCtx) (now : GoTime) (weatherData : Option Forecast)
    (events : List Event) (maxEventsPerDay : Nat) (d : Int) : DayDataV1 :=
  let temps := tempStrings weatherData now ⟨d, 0⟩
  { date := d
    dayNum := cal.dayNumOf d
    monthShort := cal.monthShortOf d
    isToday := d == now.day
    isWeekend := goWeekday d == 6 || goWeekday d == 0
    isCurrentMonth := cal.monthOf d == cal.monthOf now.day
    dayTemp := temps.1
    nightTemp := temps.2
    events := (dayEventsV1 events maxEventsPerDay d).map toEventData }

/-- One day cell of the second variant's week loop. -/
def buildDayV2 (cal : CalendarCtx) (now : GoTime) (weatherData : Option Forecast)
    (events : List Event) (maxEventsPerDay : Nat) (d : Int) : DayDataV2 :=
  let temps := tempStrings weatherData now ⟨d, 0⟩
  { date := d
    dayNum := cal.dayNumOf d
    monthShort := cal.monthShortOf d
    isToday := d == now.day
    isPast := decide (d < now.day)
    isWeekend := goWeekday d == 6 || goWeekday d == 0
    isCurrentMonth := cal.monthOf d == cal.monthOf now.day
    dayTemp := temps.1
    nightTemp := temps.2
    events := (dayEventsV2 events maxEventsPerDay d).map toEventData }

/-- `render.TemplateData` of the first variant. -/
structure TemplateDataV1 where
  width : Int
  height : Int
  generatedAt : GoTime
  monthName : String
  year : Int
  weeks : List (List DayDataV1)
deriving DecidableEq, Repr

/-- `render.TemplateData` of the second variant. -/
structure TemplateDataV2 where
  width : Int
  height : Int
  generatedAt : GoTime
  monthName : String
  year : Int
  weeks : List (List DayDataV2)
deriving DecidableEq, Repr

/-- The first `PrepareMonthData` variant (render.go, start-date-only buckets). -/
def prepareMonthDataV1 (cal : CalendarCtx) (now : GoTime) (width height : Int)
    (weatherData : Option Forecast) (events : List Event) (maxEventsPerDay : Nat) :
    TemplateDataV1 :=
  let firstOfMonth := cal.firstOfMonth
  let lastOfMonth := firstOfMonth + (cal.monthLen : Int) - 1
  let startDate := gridStart firstOfMonth
  let endDate := gridEnd lastOfMonth
  { width := width
    height := height
    generatedAt := now
    monthName := cal.monthName
    year := cal.year
    weeks := buildWeeksWith (buildDayV1 cal now weatherData events maxEventsPerDay)
      endDate startDate }

/-- The second `PrepareMonthData` variant (render.go, multi-day expansion with
all-day end-date correction). -/
def prepareMonthDataV2 (cal : CalendarCtx) (now : GoTime) (width height : Int)
    (weatherData : Option Forecast) (events : List Event) (maxEventsPerDay : Nat) :
    TemplateDataV2 :=
  let firstOfMonth := cal.firstOfMonth
  let lastOfMonth := firstOfMonth + (cal.monthLen : Int) - 1
  let startDate := gridStart firstOfMonth
  let endDate := gridEnd lastOfMonth
  { width := width
    height := height
    generatedAt := now
    monthName := cal.monthName
    year := cal.year
    weeks := buildWeeksWith (buildDayV2 cal now weatherData events maxEventsPerDay)
      endDate startDate }

/-- Forget the `IsPast` field of a second-variant day cell, for comparing the
two variants on their common fields. -/
def DayDataV2.toV1 (d : DayDataV2) : DayDataV1 :=
  { date := d.date
    dayNum := d.dayNum
    monthShort := d.monthShort
    isToday := d.isToday
    isWeekend := d.isWeekend
    isCurrentMonth := d.isCurrentMonth
    dayTemp := d.dayTemp
    nightTemp := d.nightTemp
    events := d.events }

/-- Forget the `IsPast` fields of a second-variant result. -/
def TemplateDataV2.toV1 (t : TemplateDataV2) : TemplateDataV1 :=
  { width := t.width
    height := t.height
    generatedAt := t.generatedAt
    monthName := t.monthName
    year := t.year
    weeks := t.weeks.map (List.map DayDataV2.toV1) }

/-!
### Permutation facts about the sort embedding

Every mutation the Go sort performs is a `data.Swap`, so every helper leaves
the multiset of elements unchanged, for any fuel.
-/

namespace GoSort

variable {α : Type} [Inhabited α] [DecidableEq α]

theorem swapL_perm (l : List α) (i j : Nat) : (swapL l i j).Perm l := by
  unfold swapL
  split
  case isTrue h =>
    obtain ⟨hi, hj⟩ := h
    have hgi : idx l i = l[i] := List.getD_eq_getElem l default hi
    have hgj : idx l j = l[j] := List.getD_eq_getElem l default hj
    rw [hgi, hgj, List.perm_iff_count]
    intro x
    have hj2 : j < (l.set i l[j]).length := by simpa using hj
    have e1 := List.count_set l[i] x (l.set i l[j]) j hj2
    have e2 := List.count_set l[j] x l i hi
    have hset : (l.set i l[j])[j] = l[j] := by
      rw [List.getElem_set]
      split <;> rfl
    have hmemi : l[i] ∈ l := List.getElem_mem hi
    have hcnt : (if (l[i] == x) = true then 1 else 0) ≤ l.count x := by
      split
      case isTrue hx =>
        rw [beq_iff_eq] at hx
        subst hx
        exact List.count_pos_iff.mpr hmemi
      case isFalse hx => exact Nat.zero_le _
    rw [e1, e2, hset]
    by_cases h1 : (l[i] == x) = true
    · by_cases h2 : (l[j] == x) = true
      · simp only [h1, h2, if_true] at hcnt ⊢
        omega
      · simp only [h1, h2, if_true, if_false] at hcnt ⊢
        omega
    · by_cases h2 : (l[j] == x) = true
      · simp only [h1, h2, if_true, if_false] at hcnt ⊢
        omega
      · simp only [h1, h2, if_false] at hcnt ⊢
        omega
  case isFalse h => exact List.Perm.refl l

theorem swapL_length (l : List α) (i j : Nat) : (swapL l i j).length = l.length := by
  unfold swapL
  split
  · simp
  · rfl

theorem insertInner_perm (less : α → α → Bool) (a : Nat) (l : List α) (j : Nat) :
    (insertInner less a l j).Perm l := by
  induction j generalizing l with
  | zero => exact List.Perm.refl l
  | succ j ih =>
    rw [insertInner]
    split
    case isTrue h => exact (ih _).trans (swapL_perm l (j + 1) j)
    case isFalse h => exact List.Perm.refl l

theorem insertionSortLoop_perm (less : α → α → Bool) (a b fuel : Nat) (l : List α) (i : Nat) :
    (insertionSortLoop less a b fuel l i).Perm l := by
  induction fuel generalizing l i with
  | zero => exact List.Perm.refl l
  | succ fuel ih =>
    rw [insertionSortLoop]
    split
    case isTrue h => exact (ih _ _).trans (insertInner_perm less a l i)
    case isFalse h => exact List.Perm.refl l

theorem insertionSortGo_perm (less : α → α → Bool) (l : List α) (a b : Nat) :
    (insertionSortGo less l a b).Perm l :=
  insertionSortLoop_perm less a b (b - a) l (a + 1)

theorem siftDownLoop_perm (less : α → α → Bool) (hi first fuel : Nat) (l : List α)
    (root : Nat) : (siftDownLoop less hi first fuel l root).Perm l := by
  induction fuel generalizing l root with
  | zero => exact List.Perm.refl l
  | succ fuel ih =>
    rw [siftDownLoop]
    split
    case isTrue h =>
      split
      case isTrue h2 =>
        split
        case isTrue h3 => exact (ih _ _).trans (swapL_perm _ _ _)
        case isFalse h3 => exact List.Perm.refl l
      case isFalse h2 =>
        split
        case isTrue h3 => exact (ih _ _).trans (swapL_perm _ _ _)
        case isFalse h3 => exact List.Perm.refl l
    case isFalse h => exact List.Perm.refl l

theorem heapSortBuild_perm (less : α → α → Bool) (hi first : Nat) (l : List α) (i : Nat) :
    (heapSortBuild less hi first l i).Perm l := by
  induction i generalizing l with
  | zero => exact siftDownLoop_perm less hi first (hi + 1) l 0
  | succ i ih => exact (ih _).trans (siftDownLoop_perm less hi first (hi + 1) l (i + 1))

theorem heapSortSink_perm (less : α → α → Bool) (first : Nat) (l : List α) (i : Nat) :
    (heapSortSink less first l i).Perm l := by
  induction i generalizing l with
  | zero => exact (siftDownLoop_perm less 0 first 1 _ 0).trans (swapL_perm _ _ _)
  | succ i ih =>
    exact (ih _).trans ((siftDownLoop_perm less (i + 1) first (i + 2) _ 0).trans
      (swapL_perm _ _ _))

theorem heapSortGo_perm (less : α → α → Bool) (l : List α) (a b : Nat) :
    (heapSortGo less l a b).Perm l := by
  simp only [heapSortGo]
  split
  case isTrue h => exact heapSortBuild_perm less (b - a) a l ((b - a - 1) / 2)
  case isFalse h =>
    exact (heapSortSink_perm less a _ (b - a - 1)).trans
      (heapSortBuild_perm less (b - a) a l ((b - a - 1) / 2))

theorem partitionLoop_perm (less : α → α → Bool) (a b fuel : Nat) (l : List α) (i j : Nat) :
    (partitionLoop less a b fuel l i j).1.Perm l := by
  induction fuel generalizing l i j with
  | zero => exact List.Perm.refl l
  | succ fuel ih =>
    rw [partitionLoop]
    split
    case isTrue h => exact List.Perm.refl l
    case isFalse h => exact (ih _ _ _).trans (swapL_perm _ _ _)

theorem partitionGo_perm (less : α → α → Bool) (l : List α) (a b pivot : Nat) :
    (partitionGo less l a b pivot).1.Perm l := by
  simp only [partitionGo]
  split
  case isTrue h => exact (swapL_perm _ _ _).trans (swapL_perm _ _ _)
  case isFalse h =>
    exact ((swapL_perm _ _ _).trans ((partitionLoop_perm less a b b _ _ _).trans
      (swapL_perm _ _ _))).trans (swapL_perm _ _ _)

theorem partitionEqualLoop_perm (less : α → α → Bool) (a b fuel : Nat) (l : List α)
    (i j : Nat) : (partitionEqualLoop less a b fuel l i j).1.Perm l := by
  induction fuel generalizing l i j with
  | zero => exact List.Perm.refl l
  | succ fuel ih =>
    rw [partitionEqualLoop]
    split
    case isTrue h => exact List.Perm.refl l
    case isFalse h => exact (ih _ _ _).trans (swapL_perm _ _ _)

theorem partitionEqualGo_perm (less : α → α → Bool) (l : List α) (a b pivot : Nat) :
    (partitionEqualGo less l a b pivot).1.Perm l :=
  (partitionEqualLoop_perm less a b b _ (a + 1) (b - 1)).trans (swapL_perm _ _ _)

theorem shiftLeft_perm (less : α → α → Bool) (l : List α) (j : Nat) :
    (shiftLeft less l j).Perm l := by
  induction j generalizing l with
  | zero => exact List.Perm.refl l
  | succ j ih =>
    rw [shiftLeft]
    split
    case isTrue h => exact (ih _).trans (swapL_perm _ _ _)
    case isFalse h => exact List.Perm.refl l

theorem shiftRight_perm (less : α → α → Bool) (b fuel : Nat) (l : List α) (j : Nat) :
    (shiftRight less b fuel l j).Perm l := by
  induction fuel generalizing l j with
  | zero => exact List.Perm.refl l
  | succ fuel ih =>
    rw [shiftRight]
    split
    case isTrue h => exact (ih _ _).trans (swapL_perm _ _ _)
    case isFalse h => exact List.Perm.refl l

theorem partialInsertLoop_perm (less : α → α → Bool) (a b : Nat) (l : List α) (i steps : Nat) :
    (partialInsertLoop less a b l i steps).1.Perm l := by
  induction steps generalizing l i with
  | zero => exact List.Perm.refl l
  | succ steps ih =>
    rw [partialInsertLoop]
    split
    case isTrue h => exact List.Perm.refl l
    case isFalse h =>
      split
      case isTrue h2 => exact List.Perm.refl l
      case isFalse h2 =>
        set i1 := scanSorted less b l (b + 1) i with hi1
        set l1 := swapL l i1 (i1 - 1) with hl1
        set l2 := if 2 ≤ i1 - a then shiftLeft less l1 (i1 - 1) else l1 with hl2
        set l3 := if 2 ≤ b - i1 then shiftRight less b (b + 1) l2 (i1 + 1) else l2 with hl3
        have p1 : l1.Perm l := swapL_perm _ _ _
        have p2 : l2.Perm l1 := by
          rw [hl2]
          split
          · exact shiftLeft_perm _ _ _
          · exact List.Perm.refl _
        have p3 : l3.Perm l2 := by
          rw [hl3]
          split
          · exact shiftRight_perm _ _ _ _ _
          · exact List.Perm.refl _
        exact (ih _ _).trans ((p3.trans p2).trans p1)

theorem partialInsertionSortGo_perm (less : α → α → Bool) (l : List α) (a b : Nat) :
    (partialInsertionSortGo less l a b).1.Perm l :=
  partialInsertLoop_perm less a b l (a + 1) 5

theorem reverseLoop_perm (fuel : Nat) (l : List α) (i j : Nat) :
    (reverseLoop fuel l i j).Perm l := by
  induction fuel generalizing l i j with
  | zero => exact List.Perm.refl l
  | succ fuel ih =>
    rw [reverseLoop]
    split
    case isTrue h => exact (ih _ _ _).trans (swapL_perm _ _ _)
    case isFalse h => exact List.Perm.refl l

theorem reverseRangeGo_perm (l : List α) (a b : Nat) : (reverseRangeGo l a b).Perm l :=
  reverseLoop_perm (b + 1) l a (b - 1)

theorem breakOne_perm (l : List α) (a length modulus idx0 r i : Nat) :
    (breakOne l a length modulus idx0 r i).Perm l :=
  swapL_perm _ _ _

theorem breakPatternsGo_perm (l : List α) (a b : Nat) : (breakPatternsGo l a b).Perm l := by
  simp only [breakPatternsGo]
  split
  case isTrue h =>
    exact ((breakOne_perm _ _ _ _ _ _ _).trans (breakOne_perm _ _ _ _ _ _ _)).trans
      (breakOne_perm _ _ _ _ _ _ _)
  case isFalse h => exact List.Perm.refl l

theorem pdqStage_perm (less : α → α → Bool) (l : List α) (a b limit : Nat)
    (wasBalanced wasPartitioned : Bool) :
    (pdqStage less l a b limit wasBalanced wasPartitioned).1.Perm l := by
  simp only [pdqStage]
  set st := if !wasBalanced then (breakPatternsGo l a b, limit - 1) else (l, limit) with hst
  have hstp : st.1.Perm l := by
    rw [hst]
    split
    · exact breakPatternsGo_perm l a b
    · exact List.Perm.refl l
  set pv := choosePivotGo less st.1 a b with hpv
  set st2 := if pv.2 = SortHint.decreasing then
      (reverseRangeGo st.1 a b, (b - 1) - (pv.1 - a), SortHint.increasing)
    else (st.1, pv.1, pv.2) with hst2
  have hst2p : st2.1.Perm st.1 := by
    rw [hst2]
    split
    · exact reverseRangeGo_perm _ _ _
    · exact List.Perm.refl _
  have hst3p : (if wasBalanced ∧ wasPartitioned ∧ st2.2.2 = SortHint.increasing then
      partialInsertionSortGo less st2.1 a b
    else (st2.1, false)).1.Perm st2.1 := by
    split
    · exact partialInsertionSortGo_perm _ _ _ _
    · exact List.Perm.refl _
  exact (hst3p.trans hst2p).trans hstp

theorem pdqsortF_perm (less : α → α → Bool) (fuel : Nat) (l : List α)
    (a b limit : Nat) (wasBalanced wasPartitioned : Bool) :
    (pdqsortF less fuel l a b limit wasBalanced wasPartitioned).Perm l := by
  induction fuel generalizing l a b limit wasBalanced wasPartitioned with
  | zero => exact List.Perm.refl l
  | succ fuel ih =>
    simp only [pdqsortF]
    split
    case isTrue h => exact insertionSortGo_perm less l a b
    case isFalse h =>
      split
      case isTrue h2 => exact heapSortGo_perm less l a b
      case isFalse h2 =>
        have hps : (pdqStage less l a b limit wasBalanced wasPartitioned).1.Perm l :=
          pdqStage_perm less l a b limit wasBalanced wasPartitioned
        split
        case isTrue h3 => exact hps
        case isFalse h3 =>
          split
          case isTrue h4 =>
            exact (ih _ _ _ _ _ _).trans ((partitionEqualGo_perm _ _ _ _ _).trans hps)
          case isFalse h4 =>
            split
            case isTrue h5 =>
              exact ((ih _ _ _ _ _ _).trans (ih _ _ _ _ _ _)).trans
                ((partitionGo_perm _ _ _ _ _).trans hps)
            case isFalse h5 =>
              exact ((ih _ _ _ _ _ _).trans (ih _ _ _ _ _ _)).trans
                ((partitionGo_perm _ _ _ _ _).trans hps)

theorem sortSliceGo_perm (less : α → α → Bool) (l : List α) : (sortSliceGo less l).Perm l :=
  pdqsortF_perm less (2 * l.length + 64) l 0 l.length (bitsLen l.length) true true

theorem sortSliceGo_length (less : α → α → Bool) (l : List α) :
    (sortSliceGo less l).length = l.length :=
  (sortSliceGo_perm less l).length_eq

end GoSort

/-- `SortEvents` returns a permutation of its input. -/
theorem sortEvents_perm (events : List Event) : (sortEvents events).Perm events :=
  GoSort.sortSliceGo_perm lessEvent events

/-- `SortEvents` preserves the number of events. -/
theorem sortEvents_length (events : List Event) :
    (sortEvents events).length = events.length :=
  (sortEvents_perm events).length_eq

/-!
### The insertion-sort path of the Go sort, as a functional program

For ranges of at most 12 elements (`maxInsertion`), `pdqsort_func` immediately
delegates to `insertionSort_func`.  The swap loop of `insertionSort_func`
bubbles each element leftwards past greater elements; on lists this is
`bubbleRev` over the reversed sorted prefix.  The bridge lemmas below prove the
imperative loops equal to this functional form, from which sortedness and
stability follow.
-/

namespace GoSort

variable {α : Type} [Inhabited α] [DecidableEq α]

/-- The inner swap loop of `insertionSort_func` in functional form: insert `x`
into the reversed already-sorted prefix, moving it past every element it is
`less` than. -/
def bubbleRev (less : α → α → Bool) (x : α) : List α → List α
  | [] => [x]
  | y :: ys => if less x y = true then y :: bubbleRev less x ys else x :: y :: ys

/-- The outer loop of `insertionSort_func` in functional form, the sorted
prefix kept reversed. -/
def insFold (less : α → α → Bool) : List α → List α → List α
  | racc, [] => racc
  | racc, x :: rest => insFold less (bubbleRev less x racc) rest

/-- `insertionSort_func` over a whole slice, in functional form. -/
def insertionSortList (less : α → α → Bool) (l : List α) : List α :=
  (insFold less [] l).reverse

theorem bubbleRev_length (less : α → α → Bool) (x : α) (t : List α) :
    (bubbleRev less x t).length = t.length + 1 := by
  induction t with
  | nil => rfl
  | cons y ys ih =>
    rw [bubbleRev]
    split
    · simpa using ih
    · simp

theorem bubbleRev_perm (less : α → α → Bool) (x : α) (t : List α) :
    (bubbleRev less x t).Perm (x :: t) := by
  induction t with
  | nil => exact List.Perm.refl _
  | cons y ys ih =>
    rw [bubbleRev]
    split
    · exact (ih.cons y).trans (List.Perm.swap x y ys)
    · exact List.Perm.refl _

/-- Helper: reading just past a prefix of known length. -/
theorem getD_append_cons (T : List α) (x : α) (rest : List α) (d : α) :
    (T ++ x :: rest).getD T.length d = x := by
  induction T with
  | nil => rfl
  | cons y ys ih => simpa using ih

/-- An adjacent swap decomposed by position. -/
theorem swapL_adj (l : List α) (k : Nat) (hk : k + 1 < l.length) :
    swapL l (k + 1) k = l.take k ++ l[k + 1] :: l[k] :: l.drop (k + 2) := by
  have hk0 : k < l.length := by omega
  unfold swapL
  rw [if_pos ⟨hk, hk0⟩]
  have hgi : idx l (k + 1) = l[k + 1] := List.getD_eq_getElem l default hk
  have hgj : idx l k = l[k] := List.getD_eq_getElem l default hk0
  rw [hgi, hgj]
  have hA : l.set (k + 1) l[k] = l.take (k + 1) ++ l[k] :: l.drop (k + 2) := by
    rw [List.set_eq_take_append_cons_drop, if_pos hk]
  rw [hA]
  have hlen1 : (l.take (k + 1)).length = k + 1 := by
    rw [List.length_take]
    omega
  have hB : (l.take (k + 1) ++ l[k] :: l.drop (k + 2)).set k l[k + 1] =
      l.take k ++ l[k + 1] :: l[k] :: l.drop (k + 2) := by
    rw [List.set_eq_take_append_cons_drop, if_pos (by simp [hlen1]; omega)]
    congr 1
    · rw [List.take_append_of_le_length (by omega), List.take_take]
      congr 1
      omega
    · congr 1
      have : l.take (k + 1) ++ l[k] :: l.drop (k + 2) =
          l.take (k + 1) ++ (l[k] :: l.drop (k + 2)) := rfl
      rw [this, List.drop_left' hlen1]
  rw [hB]

theorem insertInner_eq_bubbleRev (less : α → α → Bool) (l : List α) (j : Nat)
    (hj : j < l.length) :
    insertInner less 0 l j =
      (bubbleRev less (idx l j) ((l.take j).reverse)).reverse ++ l.drop (j + 1) := by
  induction j generalizing l with
  | zero =>
    have hgj : idx l 0 = l[0] := List.getD_eq_getElem l default hj
    have h2 := List.getElem_cons_drop l 0 hj
    rw [List.drop_zero] at h2
    rw [insertInner]
    simp only [List.take_zero, List.reverse_nil, bubbleRev, List.reverse_cons,
      List.reverse_nil, List.nil_append, List.singleton_append, hgj]
    exact h2.symm
  | succ k ih =>
    have hgj : idx l (k + 1) = l[k + 1] := List.getD_eq_getElem l default hj
    have hk : k < l.length := by omega
    have hgk : idx l k = l[k] := List.getD_eq_getElem l default hk
    have htake : (l.take (k + 1)).reverse = l[k] :: (l.take k).reverse := by
      rw [List.take_succ, List.getElem?_eq_getElem hk]
      simp
    rw [insertInner]
    by_cases hless : less (idx l (k + 1)) (idx l k) = true
    · rw [if_pos ⟨Nat.succ_pos k, hless⟩]
      have hswap := swapL_adj l k hj
      rw [hswap]
      set la := l.take k ++ l[k + 1] :: l[k] :: l.drop (k + 2) with hla
      have htklen : (l.take k).length = k := by
        rw [List.length_take]
        omega
      have hlalen : la.length = l.length := by
        rw [hla]
        simp only [List.length_append, List.length_cons, List.length_drop, htklen]
        omega
      have hidxla : idx la k = l[k + 1] := by
        rw [hla]
        have h3 := getD_append_cons (l.take k) (l[k + 1]) (l[k] :: l.drop (k + 2)) default
        rwa [htklen] at h3
      have htakela : la.take k = l.take k := by
        rw [hla, List.take_append_of_le_length (by omega), List.take_take]
        simp
      have hdropla : la.drop (k + 1) = l[k] :: l.drop (k + 2) := by
        rw [hla,
          show l.take k ++ l[k + 1] :: l[k] :: l.drop (k + 2) =
            (l.take k ++ [l[k + 1]]) ++ (l[k] :: l.drop (k + 2)) from by simp,
          List.drop_left' (by simp [htklen])]
      have hrec := ih la (by omega)
      rw [hrec, hidxla, htakela, hdropla, hgj, htake]
      rw [hgj, hgk] at hless
      rw [bubbleRev, if_pos hless]
      simp
    · rw [if_neg (by intro hc; exact hless hc.2)]
      rw [hgj, hgk] at hless
      rw [hgj, htake, bubbleRev, if_neg hless]
      have h1 : l.take (k + 1 + 1) = l.take k ++ [l[k], l[k + 1]] := by
        rw [List.take_succ, List.getElem?_eq_getElem hj, List.take_succ,
          List.getElem?_eq_getElem hk]
        simp only [Option.toList_some, List.append_assoc, List.singleton_append]
      conv_lhs => rw [← List.take_append_drop (k + 1 + 1) l, h1]
      simp

theorem insertionSortLoop_eq_insFold (less : α → α → Bool) (fuel : Nat) (l : List α)
    (i : Nat) (hfuel : l.length - i ≤ fuel) :
    insertionSortLoop less 0 l.length fuel l i =
      (insFold less ((l.take i).reverse) (l.drop i)).reverse := by
  induction fuel generalizing l i with
  | zero =>
    rw [insertionSortLoop, List.take_of_length_le (by omega),
      List.drop_eq_nil_of_le (by omega), insFold, List.reverse_reverse]
  | succ fuel ih =>
    rw [insertionSortLoop]
    by_cases hib : i < l.length
    · rw [if_pos hib]
      have hbr := insertInner_eq_bubbleRev less l i hib
      set la := insertInner less 0 l i with hla
      have hlalen : la.length = l.length := (insertInner_perm less 0 l i).length_eq
      have hblen : ((bubbleRev less (idx l i) ((l.take i).reverse)).reverse).length =
          i + 1 := by
        rw [List.length_reverse, bubbleRev_length, List.length_reverse, List.length_take]
        omega
      have htakela : la.take (i + 1) =
          (bubbleRev less (idx l i) ((l.take i).reverse)).reverse := by
        rw [hbr, List.take_left' hblen]
      have hdropla : la.drop (i + 1) = l.drop (i + 1) := by
        rw [hbr, List.drop_left' hblen]
      have hrec := ih la (i + 1) (by omega)
      rw [hlalen] at hrec
      rw [hrec, htakela, hdropla, List.reverse_reverse]
      have hdropi : l.drop i = idx l i :: l.drop (i + 1) := by
        rw [idx, List.getD_eq_getElem l default hib]
        exact (List.getElem_cons_drop l i hib).symm
      rw [hdropi, insFold]
    · rw [if_neg hib]
      rw [List.take_of_length_le (by omega), List.drop_eq_nil_of_le (by omega), insFold,
        List.reverse_reverse]

theorem insertionSortGo_eq_list (less : α → α → Bool) (l : List α) :
    insertionSortGo less l 0 l.length = insertionSortList less l := by
  rw [insertionSortGo,
    show l.length - 0 = l.length from rfl,
    insertionSortLoop_eq_insFold less l.length l 1 (by omega), insertionSortList]
  match l with
  | [] => rfl
  | x :: xs =>
    rw [show (((x :: xs).take 1).reverse) = [x] from rfl,
      show ((x :: xs).drop 1) = xs from rfl]
    rw [show (insFold less [] (x :: xs)) = insFold less (bubbleRev less x []) xs from rfl]
    rfl

/-- For at most 12 elements (`maxInsertion`), `sort.Slice` is exactly the
insertion sort, in functional form. -/
theorem sortSliceGo_small (less : α → α → Bool) (l : List α) (h : l.length ≤ 12) :
    sortSliceGo less l = insertionSortList less l := by
  rw [sortSliceGo,
    show 2 * l.length + 64 = (2 * l.length + 63) + 1 from rfl, pdqsortF,
    if_pos (by omega : l.length - 0 ≤ 12)]
  exact insertionSortGo_eq_list less l

theorem bubbleRev_pairwise (less : α → α → Bool)
    (htrans : ∀ x y z : α, less x y = false → less y z = false → less x z = false)
    (hasym : ∀ x y : α, less x y = true → less y x = false)
    (x : α) (t : List α) (ht : t.Pairwise (fun a b => less a b = false)) :
    (bubbleRev less x t).Pairwise (fun a b => less a b = false) := by
  induction t with
  | nil => simp [bubbleRev]
  | cons y ys ih =>
    rw [List.pairwise_cons] at ht
    obtain ⟨hy, hys⟩ := ht
    rw [bubbleRev]
    split
    case isTrue hxy =>
      rw [List.pairwise_cons]
      refine ⟨?_, ih hys⟩
      intro b hb
      rcases List.mem_cons.mp ((bubbleRev_perm less x ys).mem_iff.mp hb) with rfl | hb2
      · exact hasym b y hxy
      · exact hy b hb2
    case isFalse hxy =>
      have hxyf : less x y = false := by
        revert hxy
        cases less x y <;> simp
      rw [List.pairwise_cons]
      constructor
      · intro b hb
        rcases List.mem_cons.mp hb with rfl | hb2
        · exact hxyf
        · exact htrans x y b hxyf (hy b hb2)
      · rw [List.pairwise_cons]
        exact ⟨hy, hys⟩

theorem insFold_pairwise (less : α → α → Bool)
    (htrans : ∀ x y z : α, less x y = false → less y z = false → less x z = false)
    (hasym : ∀ x y : α, less x y = true → less y x = false) :
    ∀ (rest racc : List α), racc.Pairwise (fun a b => less a b = false) →
      (insFold less racc rest).Pairwise (fun a b => less a b = false) := by
  intro rest
  induction rest with
  | nil =>
    intro racc h
    exact h
  | cons x rest ih =>
    intro racc h
    exact ih _ (bubbleRev_pairwise less htrans hasym x racc h)

/-- The functional insertion sort sorts: no later element is `less` than an
earlier one. -/
theorem insertionSortList_pairwise (less : α → α → Bool)
    (htrans : ∀ x y z : α, less x y = false → less y z = false → less x z = false)
    (hasym : ∀ x y : α, less x y = true → less y x = false) (l : List α) :
    (insertionSortList less l).Pairwise (fun a b => less b a = false) := by
  rw [insertionSortList, List.pairwise_reverse]
  exact insFold_pairwise less htrans hasym l [] List.Pairwise.nil

theorem bubbleRev_filter (less : α → α → Bool) (P : α → Bool)
    (hP : ∀ u v : α, P u = true → P v = true → less u v = false)
    (x : α) (t : List α) :
    (bubbleRev less x t).filter P =
      if P x = true then x :: t.filter P else t.filter P := by
  induction t with
  | nil =>
    rw [bubbleRev]
    cases hPx : P x <;> simp [List.filter, hPx]
  | cons y ys ih =>
    rw [bubbleRev]
    split
    case isTrue hxy =>
      rw [List.filter_cons]
      by_cases hPy : P y = true
      · by_cases hPx : P x = true
        · exact absurd (hP x y hPx hPy) (by simp [hxy])
        · rw [if_pos hPy, ih, if_neg hPx, if_neg hPx, List.filter_cons, if_pos hPy]
      · rw [if_neg hPy, ih, List.filter_cons, if_neg hPy]
    case isFalse hxy =>
      rw [List.filter_cons, List.filter_cons]

/-- Folding preserves the `P`-selected subsequence (in reversed order), when
`P`-selected elements are never `less` than each other. -/
theorem insFold_filter (less : α → α → Bool) (P : α → Bool)
    (hP : ∀ u v : α, P u = true → P v = true → less u v = false) :
    ∀ (rest racc : List α),
      (insFold less racc rest).filter P = (rest.filter P).reverse ++ racc.filter P := by
  intro rest
  induction rest with
  | nil =>
    intro racc
    simp [insFold]
  | cons x rest ih =>
    intro racc
    rw [insFold, ih, bubbleRev_filter less P hP, List.filter_cons]
    by_cases hPx : P x = true
    · rw [if_pos hPx, if_pos hPx]
      simp
    · rw [if_neg hPx, if_neg hPx]

/-- Stability of the functional insertion sort, as preservation of every
mutually-unordered (`P`-selected) subsequence. -/
theorem insertionSortList_filter (less : α → α → Bool) (P : α → Bool)
    (hP : ∀ u v : α, P u = true → P v = true → less u v = false) (l : List α) :
    (insertionSortList less l).filter P = l.filter P := by
  rw [insertionSortList, List.filter_reverse, insFold_filter less P hP]
  simp

end GoSort

/-- Negative transitivity of the `SortEvents` comparator (it is a strict weak
order: lexicographic on (all-day rank, start instant)). -/
theorem lessEvent_trans_neg (x y z : Event) (h1 : lessEvent x y = false)
    (h2 : lessEvent y z = false) : lessEvent x z = false := by
  unfold lessEvent GoTime.before at *
  cases hx : x.allDay <;> cases hy : y.allDay <;> cases hz : z.allDay <;>
    simp [hx, hy, hz] at * <;> omega

/-- Asymmetry of the `SortEvents` comparator. -/
theorem lessEvent_asym (x y : Event) (h : lessEvent x y = true) :
    lessEvent y x = false := by
  unfold lessEvent GoTime.before at *
  cases hx : x.allDay <;> cases hy : y.allDay <;>
    simp [hx, hy] at * <;> omega

/-- Two events the `SortEvents` comparator cannot distinguish. -/
def eqvEvent (u v : Event) : Bool := !(lessEvent u v) && !(lessEvent v u)

theorem eqvEvent_pair_not_less (e : Event) (u v : Event)
    (hu : eqvEvent u e = true) (hv : eqvEvent v e = true) : lessEvent u v = false := by
  unfold eqvEvent at hu hv
  rw [Bool.and_eq_true, Bool.not_eq_true', Bool.not_eq_true'] at hu hv
  exact lessEvent_trans_neg u e v hu.1 hv.2

/-- On buckets of at most 12 events the Go sort is its insertion-sort path. -/
theorem sortEvents_small (l : List Event) (h : l.length ≤ 12) :
    sortEvents l = GoSort.insertionSortList lessEvent l := by
  rw [sortEvents, GoSort.sortSliceGo_small lessEvent l h]

/-!
### Grid structure lemmas
-/

theorem dateRange_split7 (s e : Int) (h7 : (7:Int) ∣ (e + 1 - s)) (hse : s ≤ e) :
    dateRange s e = (List.range 7).map (fun (i : Nat) => s + (i : Int)) ++ dateRange (s + 7) e := by
  have hge : 7 ≤ e + 1 - s := by
    rcases h7 with ⟨c, hc⟩
    omega
  have hn : (e + 1 - s).toNat = 7 + (e + 1 - (s + 7)).toNat := by omega
  simp only [dateRange]
  rw [hn, List.range_add, List.map_append, List.map_map]
  congr 1
  apply List.map_congr_left
  intro i hi
  simp only [Function.comp_apply]
  push_cast
  ring

theorem buildWeeksLoop_spec {β : Type} (dayFn : Int → β) (endD : Int) :
    ∀ (fuel : Nat) (cur : Int), (endD + 1 - cur).toNat ≤ fuel → (7:Int) ∣ (endD + 1 - cur) →
      (∀ w ∈ buildWeeksLoop dayFn endD fuel cur, w.length = 7) ∧
      (buildWeeksLoop dayFn endD fuel cur).flatten = (dateRange cur endD).map dayFn := by
  intro fuel
  induction fuel with
  | zero =>
    intro cur hle h7
    rw [buildWeeksLoop]
    refine ⟨?_, ?_⟩
    · intro w hw
      cases hw
    · simp only [dateRange]
      rw [show (endD + 1 - cur).toNat = 0 by omega]
      rfl
  | succ fuel ihn =>
    intro cur hle h7
    rw [buildWeeksLoop]
    by_cases hc : cur ≤ endD
    · rw [if_pos hc]
      have hge : 7 ≤ endD + 1 - cur := by
        rcases h7 with ⟨c, hc2⟩
        omega
      have hrec := ihn (cur + 7) (by omega) (by omega)
      refine ⟨?_, ?_⟩
      · intro w hw
        rcases List.mem_cons.mp hw with rfl | hw2
        · simp
        · exact hrec.1 w hw2
      · rw [List.flatten_cons, hrec.2, dateRange_split7 cur endD h7 hc, List.map_append,
          List.map_map]
        rfl
    · rw [if_neg hc]
      refine ⟨?_, ?_⟩
      · intro w hw
        cases hw
      · simp only [dateRange]
        rw [show (endD + 1 - cur).toNat = 0 by omega]
        rfl

theorem buildWeeksWith_spec {β : Type} (dayFn : Int → β) (endD : Int) (cur : Int)
    (h7 : (7:Int) ∣ (endD + 1 - cur)) :
    (∀ w ∈ buildWeeksWith dayFn endD cur, w.length = 7) ∧
    (buildWeeksWith dayFn endD cur).flatten = (dateRange cur endD).map dayFn :=
  buildWeeksLoop_spec dayFn endD ((endD + 1 - cur).toNat) cur (Nat.le_refl _) h7

theorem buildWeeksLoop_comp {β γ : Type} (f : Int → β) (g : β → γ) (endD : Int) :
    ∀ (fuel : Nat) (cur : Int),
      buildWeeksLoop (fun d => g (f d)) endD fuel cur =
        (buildWeeksLoop f endD fuel cur).map (List.map g) := by
  intro fuel
  induction fuel with
  | zero =>
    intro cur
    rfl
  | succ fuel ihn =>
    intro cur
    rw [buildWeeksLoop]
    conv_rhs => rw [buildWeeksLoop]
    by_cases hc : cur ≤ endD
    · rw [if_pos hc, if_pos hc, List.map_cons, ihn (cur + 7), List.map_map]
      rfl
    · rw [if_neg hc, if_neg hc]
      rfl

theorem buildWeeksWith_comp {β γ : Type} (f : Int → β) (g : β → γ) (endD cur : Int) :
    buildWeeksWith (fun d => g (f d)) endD cur =
      (buildWeeksWith f endD cur).map (List.map g) :=
  buildWeeksLoop_comp f g endD ((endD + 1 - cur).toNat) cur

/-!
### Claims
-/

/-- C1: for every all-day event whose calendar end date is strictly after its
start date, the day mapper decrements the end date by one day before
expansion, so the event is bucketed under every date from its start date to
the corrected end date inclusive; in particular a 3-day all-day event with
exclusive provider end date `start + 3` appears under exactly `start`,
`start + 1`, `start + 2`, and never under `start + 3`. -/
theorem c1_allday_exclusive_end (events : List Event) (e : Event) (he : e ∈ events)
    (hall : e.allDay = true) (hgt : e.start.day < e.endTime.day) :
    (∀ d : Int, e ∈ eventsByDateV2 events d ↔ e.start.day ≤ d ∧ d ≤ e.endTime.day - 1) ∧
    (e.endTime.day = e.start.day + 3 →
      e ∈ eventsByDateV2 events e.start.day ∧
      e ∈ eventsByDateV2 events (e.start.day + 1) ∧
      e ∈ eventsByDateV2 events (e.start.day + 2) ∧
      e ∉ eventsByDateV2 events (e.start.day + 3)) := by
  have hcorr : eventEndDateCorrected e = e.endTime.day - 1 := by
    rw [eventEndDateCorrected, if_pos ⟨hall, hgt⟩]
  have hmem : ∀ d : Int,
      e ∈ eventsByDateV2 events d ↔ e.start.day ≤ d ∧ d ≤ e.endTime.day - 1 := by
    intro d
    rw [eventsByDateV2]
    simp only [List.mem_filter, decide_eq_true_eq, hcorr]
    constructor
    · exact fun h => h.2
    · exact fun h => ⟨he, h⟩
  refine ⟨hmem, ?_⟩
  intro h3
  refine ⟨(hmem _).mpr (by omega), (hmem _).mpr (by omega), (hmem _).mpr (by omega), ?_⟩
  intro hmem3
  have := (hmem _).mp hmem3
  omega

/-- The 3-day all-day event of the spec's end-to-end scenario: provider end
date is three days after the start (exclusive). -/
def ev3 : Event := ⟨"Conference", "", "", ⟨10, 0⟩, ⟨13, 0⟩, true, ""⟩

/-- Witness for C1 at the concrete 3-day event. -/
theorem c1_witness :
    ev3 ∈ [ev3] ∧ ev3.allDay = true ∧ ev3.start.day < ev3.endTime.day ∧
    (ev3 ∈ eventsByDateV2 [ev3] ev3.start.day ∧
     ev3 ∈ eventsByDateV2 [ev3] (ev3.start.day + 1) ∧
     ev3 ∈ eventsByDateV2 [ev3] (ev3.start.day + 2) ∧
     ev3 ∉ eventsByDateV2 [ev3] (ev3.start.day + 3)) :=
  ⟨by decide, by decide, by decide,
    (c1_allday_exclusive_end [ev3] ev3 (by decide) (by decide) (by decide)).2 (by decide)⟩

/-- C2: for any month (first day `first`, length `len ≥ 1`), the grid span is a
whole number of weeks (day count divisible by 7), starts on a Monday, ends on
a Sunday, contains the whole month, and the week-building loop partitions it
into rows of exactly 7 cells, one cell per consecutive date. -/
theorem c2_grid_shape (first : Int) (len : Nat) (hlen : 1 ≤ len) :
    (7:Int) ∣ (gridEnd (first + len - 1) + 1 - gridStart first) ∧
    goWeekday (gridStart first) = 1 ∧
    goWeekday (gridEnd (first + len - 1)) = 0 ∧
    gridStart first ≤ first ∧
    first + len - 1 ≤ gridEnd (first + len - 1) ∧
    (∀ (β : Type) (dayFn : Int → β),
      (∀ w ∈ buildWeeksWith dayFn (gridEnd (first + len - 1)) (gridStart first),
        w.length = 7) ∧
      (buildWeeksWith dayFn (gridEnd (first + len - 1)) (gridStart first)).flatten =
        (dateRange (gridStart first) (gridEnd (first + len - 1))).map dayFn) := by
  have key : ∀ d : Int, 1 ≤ remapWeekday (goWeekday d) ∧ remapWeekday (goWeekday d) ≤ 7 ∧
      remapWeekday (goWeekday d) % 7 = d % 7 := by
    intro d
    unfold remapWeekday goWeekday
    by_cases h : d % 7 = 0
    · rw [if_pos h]
      omega
    · rw [if_neg h]
      omega
  obtain ⟨ha1, ha2, ha3⟩ := key first
  obtain ⟨hb1, hb2, hb3⟩ := key (first + len - 1)
  have hgs : gridStart first = first - (remapWeekday (goWeekday first) - 1) := rfl
  have hge : gridEnd (first + len - 1) =
      (first + len - 1) + (7 - remapWeekday (goWeekday (first + len - 1))) := rfl
  have hdvd : (7:Int) ∣ (gridEnd (first + len - 1) + 1 - gridStart first) := by
    rw [hgs, hge]
    omega
  refine ⟨hdvd, ?_, ?_, ?_, ?_, ?_⟩
  · show (gridStart first) % 7 = 1
    rw [hgs]
    omega
  · show (gridEnd (first + len - 1)) % 7 = 0
    rw [hge]
    omega
  · rw [hgs]
    omega
  · rw [hge]
    omega
  · intro β dayFn
    exact buildWeeksWith_spec dayFn _ _ hdvd

/-- Witness for C2 at the March-2024 shape: the 1st is a Friday (day 5 with
the Sunday-0 epoch), 31 days; the grid runs Monday day 1 to Sunday day 35. -/
theorem c2_witness : (1:Nat) ≤ 31 ∧ goWeekday (gridStart 5) = 1 ∧
    goWeekday (gridEnd (5 + (31:Nat) - 1)) = 0 :=
  ⟨by norm_num, (c2_grid_shape 5 31 (by norm_num)).2.1, (c2_grid_shape 5 31 (by norm_num)).2.2.1⟩

/-- The forecast of C3's failing input: one 21° sample at noon on day 0,
nothing in the night window. -/
def c3Forecast : Forecast := ⟨[⟨⟨0, 12 * 3600⟩, 21, 0, 0, 0⟩]⟩

/-- C3: the claim says that when either hour window has zero samples both
output strings are empty.  The code violates this: with an empty night window
and a 21° day window it emits the bare `"0°"` the spec rules out (the
`dayTempValue != 0 || nightTempValue != 0` guard formats both values whenever
either is nonzero).  This theorem evaluates the code at that failing input. -/
theorem c3_bare_zero_eval :
    (c3Forecast.nightSamples ⟨0, 0⟩).length = 0 ∧
    tempStrings (some c3Forecast) ⟨0, 0⟩ ⟨0, 0⟩ = ("21°", "0°") ∧
    ("0°" : String) ≠ "" := by
  refine ⟨rfl, ?_, by decide⟩
  have hday : c3Forecast.getDayTemperature ⟨0, 0⟩ = 21 := by
    norm_num [Forecast.getDayTemperature, Forecast.daySamples, List.filter, GoTime.hour,
      c3Forecast]
  have hnight : c3Forecast.getNightTemperature ⟨0, 0⟩ = 0 := by
    norm_num [Forecast.getNightTemperature, Forecast.nightSamples, List.filter, GoTime.hour,
      c3Forecast]
  simp only [tempStrings]
  rw [if_pos (by simp [GoTime.before]), hday, hnight, if_pos (by norm_num)]
  have h21 : formatTemp 21 = "21°" := by
    norm_num [formatTemp, roundHalfEven]
    decide
  have h0 : formatTemp 0 = "0°" := by
    norm_num [formatTemp, roundHalfEven]
    decide
  rw [h21, h0]

/-- C9: `SortEvents` never mutates its argument and returns a fresh sorted
copy: the input buffer after the call is the input itself (all writes target
the copied slice), and the returned slice is a permutation of the input. -/
theorem c9_sortEvents_frame (events : List Event) :
    (sortEventsBuffers events).1 = events ∧
    (sortEventsBuffers events).2.Perm events :=
  ⟨rfl, GoSort.sortSliceGo_perm lessEvent events⟩

/-- `%.0f°` always produces at least the degree sign. -/
theorem formatTemp_ne_empty (q : ℚ) : formatTemp q ≠ "" := by
  rw [formatTemp]
  intro h
  have h2 := congrArg String.data h
  rw [String.data_append] at h2
  have h3 := (List.append_eq_nil.mp h2).2
  exact absurd h3 (by decide)

/-- The forecast of C4's counterexample: one 0° sample in each hour window on
day 0 — data present in both windows, yet the code emits no strings. -/
def c4Forecast : Forecast := ⟨[⟨⟨0, 0⟩, 0, 0, 0, 0⟩, ⟨⟨0, 12 * 3600⟩, 0, 0, 0, 0⟩]⟩

/-- Counterexample to C4 as stated: an in-window date with at least one sample
in each hour band for which both output strings are empty (both means are 0,
so the `!= 0` guard suppresses the output). -/
theorem c4_counterexample :
    (c4Forecast.daySamples ⟨0, 0⟩).length = 1 ∧
    (c4Forecast.nightSamples ⟨0, 0⟩).length = 1 ∧
    tempStrings (some c4Forecast) ⟨0, 0⟩ ⟨0, 0⟩ = ("", "") := by
  refine ⟨rfl, rfl, ?_⟩
  have hday : c4Forecast.getDayTemperature ⟨0, 0⟩ = 0 := by
    norm_num [Forecast.getDayTemperature, Forecast.daySamples, List.filter, GoTime.hour,
      c4Forecast]
  have hnight : c4Forecast.getNightTemperature ⟨0, 0⟩ = 0 := by
    norm_num [Forecast.getNightTemperature, Forecast.nightSamples, List.filter, GoTime.hour,
      c4Forecast]
  simp only [tempStrings]
  rw [if_pos (by simp [GoTime.before]), hday, hnight, if_neg (by norm_num)]

/-- C4 (amended): outside `[today, today+8)` both temperature strings are
empty regardless of data; for an in-window date with at least one sample in
each hour band, both strings are non-empty provided at least one of the two
computed means is nonzero (when both means are exactly 0 the code emits empty
strings — the counterexample above). -/
theorem c4_temperature_window (weatherData : Option Forecast) (now : GoTime) (d : Int) :
    ((d < now.day ∨ now.day + 8 ≤ d) → tempStrings weatherData now ⟨d, 0⟩ = ("", "")) ∧
    (∀ f : Forecast, weatherData = some f → now.day ≤ d → d < now.day + 8 →
      f.daySamples ⟨d, 0⟩ ≠ [] → f.nightSamples ⟨d, 0⟩ ≠ [] →
      (f.getDayTemperature ⟨d, 0⟩ ≠ 0 ∨ f.getNightTemperature ⟨d, 0⟩ ≠ 0) →
      (tempStrings weatherData now ⟨d, 0⟩).1 ≠ "" ∧
        (tempStrings weatherData now ⟨d, 0⟩).2 ≠ "") := by
  constructor
  · intro hout
    match weatherData with
    | none => rfl
    | some f =>
      simp only [tempStrings]
      rw [if_neg (by simp [GoTime.before]; omega)]
  · intro f hf hge hlt hday hnight hnz
    subst hf
    simp only [tempStrings]
    rw [if_pos (by simp [GoTime.before]; omega), if_pos hnz]
    exact ⟨formatTemp_ne_empty _, formatTemp_ne_empty _⟩

/-- The forecast of C4's witness: a 5° sample in each hour window on day 0. -/
def c4WitnessForecast : Forecast := ⟨[⟨⟨0, 0⟩, 5, 0, 0, 0⟩, ⟨⟨0, 12 * 3600⟩, 5, 0, 0, 0⟩]⟩

/-- Witness for C4 (amended): an out-of-window date yields empty strings, and
an in-window date with nonzero means in both bands yields non-empty strings. -/
theorem c4_witness :
    tempStrings (some c4WitnessForecast) ⟨0, 0⟩ ⟨-1, 0⟩ = ("", "") ∧
    (tempStrings (some c4WitnessForecast) ⟨0, 0⟩ ⟨0, 0⟩).1 ≠ "" ∧
    (tempStrings (some c4WitnessForecast) ⟨0, 0⟩ ⟨0, 0⟩).2 ≠ "" :=
  ⟨(c4_temperature_window (some c4WitnessForecast) ⟨0, 0⟩ (-1)).1 (by norm_num),
    (c4_temperature_window (some c4WitnessForecast) ⟨0, 0⟩ 0).2 c4WitnessForecast rfl
      (by norm_num) (by norm_num) (by decide) (by decide)
      (Or.inl (by
        norm_num [Forecast.getDayTemperature, Forecast.daySamples, List.filter, GoTime.hour,
          c4WitnessForecast]))⟩

/-- C6: every day cell retains at most `maxEventsPerDay` event summaries —
exactly `min maxEventsPerDay (bucket size)` of them — and when the bucket
exceeds the cap, exactly the first `maxEventsPerDay` events of the sorted
sequence are kept. -/
theorem c6_event_cap (cal : CalendarCtx) (now : GoTime) (wd : Option Forecast)
    (events : List Event) (maxEventsPerDay : Nat) (d : Int) :
    (buildDayV2 cal now wd events maxEventsPerDay d).events.length =
      min maxEventsPerDay (eventsByDateV2 events d).length ∧
    (buildDayV2 cal now wd events maxEventsPerDay d).events.length ≤ maxEventsPerDay ∧
    ((eventsByDateV2 events d).length > maxEventsPerDay →
      dayEventsV2 events maxEventsPerDay d =
        (sortEvents (eventsByDateV2 events d)).take maxEventsPerDay) := by
  have hslen : (sortEvents (eventsByDateV2 events d)).length =
      (eventsByDateV2 events d).length := sortEvents_length _
  have hev : (buildDayV2 cal now wd events maxEventsPerDay d).events =
      (dayEventsV2 events maxEventsPerDay d).map toEventData := rfl
  have hdlen : (dayEventsV2 events maxEventsPerDay d).length =
      min maxEventsPerDay (eventsByDateV2 events d).length := by
    simp only [dayEventsV2]
    split
    case isTrue h =>
      rw [List.length_take, hslen]
    case isFalse h =>
      rw [hslen]
      omega
  refine ⟨?_, ?_, ?_⟩
  · rw [hev, List.length_map, hdlen]
  · rw [hev, List.length_map, hdlen]
    omega
  · intro hgt
    simp only [dayEventsV2]
    rw [if_pos (by omega)]

/-- Twelve timed events on day 0, with distinct start times. -/
def twelveEvents : List Event :=
  (List.range 12).map (fun i => ⟨toString i, "", "", ⟨0, i * 60⟩, ⟨0, i * 60⟩, false, ""⟩)

/-- A throwaway calendar context for concrete witnesses. -/
def plainCal : CalendarCtx := ⟨0, 1, "", 0, fun _ => 0, fun _ => "", fun _ => ""⟩

/-- Witness for C6: 12 timed events on one date with `maxEventsPerDay = 10`
yield a summary sequence of length exactly 10, equal to the first 10 events of
the sorted bucket. -/
theorem c6_witness :
    (eventsByDateV2 twelveEvents 0).length = 12 ∧
    (buildDayV2 plainCal ⟨0, 0⟩ none twelveEvents 10 0).events.length = 10 ∧
    dayEventsV2 twelveEvents 10 0 = (sortEvents (eventsByDateV2 twelveEvents 0)).take 10 := by
  refine ⟨by decide, ?_, ?_⟩
  · have h := (c6_event_cap plainCal ⟨0, 0⟩ none twelveEvents 10 0).1
    rw [h, show (eventsByDateV2 twelveEvents 0).length = 12 from by decide]
    decide
  · exact (c6_event_cap plainCal ⟨0, 0⟩ none twelveEvents 10 0).2.2 (by decide)

/-- The thirteen timed events of C5's counterexample: five share the start
instant (minute 5 of day 0) and so compare equal under the `SortEvents`
comparator; the bucket exceeds 12 events, so `sort.Slice` takes its
pattern-defeating-quicksort path, which reorders the ties. -/
def tie13Events : List Event :=
  [⟨"s0", "", "", ⟨0, 300⟩, ⟨0, 300⟩, false, ""⟩,
   ⟨"s1", "", "", ⟨0, 300⟩, ⟨0, 300⟩, false, ""⟩,
   ⟨"s2", "", "", ⟨0, 120⟩, ⟨0, 120⟩, false, ""⟩,
   ⟨"s3", "", "", ⟨0, 540⟩, ⟨0, 540⟩, false, ""⟩,
   ⟨"s4", "", "", ⟨0, 300⟩, ⟨0, 300⟩, false, ""⟩,
   ⟨"s5", "", "", ⟨0, 60⟩, ⟨0, 60⟩, false, ""⟩,
   ⟨"s6", "", "", ⟨0, 420⟩, ⟨0, 420⟩, false, ""⟩,
   ⟨"s7", "", "", ⟨0, 300⟩, ⟨0, 300⟩, false, ""⟩,
   ⟨"s8", "", "", ⟨0, 180⟩, ⟨0, 180⟩, false, ""⟩,
   ⟨"s9", "", "", ⟨0, 480⟩, ⟨0, 480⟩, false, ""⟩,
   ⟨"s10", "", "", ⟨0, 300⟩, ⟨0, 300⟩, false, ""⟩,
   ⟨"s11", "", "", ⟨0, 240⟩, ⟨0, 240⟩, false, ""⟩,
   ⟨"s12", "", "", ⟨0, 360⟩, ⟨0, 360⟩, false, ""⟩]

/-- Counterexample to C5 as stated: the events `"s0"` and `"s1"` compare equal
under the sort key and appear in the bucket in the order `s0, s1`, but the
retained sequence of the day cell (maxEventsPerDay = 13, so nothing is
dropped) lists `s1` (position 4) before `s0` (position 7): the sort is not
stable on buckets of more than 12 events. -/
theorem c5_counterexample :
    lessEvent ⟨"s0", "", "", ⟨0, 300⟩, ⟨0, 300⟩, false, ""⟩
        ⟨"s1", "", "", ⟨0, 300⟩, ⟨0, 300⟩, false, ""⟩ = false ∧
    lessEvent ⟨"s1", "", "", ⟨0, 300⟩, ⟨0, 300⟩, false, ""⟩
        ⟨"s0", "", "", ⟨0, 300⟩, ⟨0, 300⟩, false, ""⟩ = false ∧
    (eventsByDateV2 tie13Events 0).map Event.summary =
      ["s0", "s1", "s2", "s3", "s4", "s5", "s6", "s7", "s8", "s9", "s10", "s11", "s12"] ∧
    (dayEventsV2 tie13Events 13 0).map Event.summary =
      ["s5", "s2", "s8", "s11", "s1", "s4", "s7", "s0", "s10", "s12", "s6", "s9", "s3"] := by
  refine ⟨by decide, by decide, by decide, by decide⟩

/-- C5 (amended): for every day cell whose date bucket holds at most 12
events, the retained sequence is the capped prefix of the sorted bucket, it is
sorted with all-day events before timed events and ascending start time within
each class, and events that compare equal keep their input order; for larger
buckets `sort.Slice` gives no stability guarantee and can reorder equal events
(the counterexample above). -/
theorem c5_sorted_stable_small (events : List Event) (maxEventsPerDay : Nat) (d : Int)
    (hsmall : (eventsByDateV2 events d).length ≤ 12) :
    dayEventsV2 events maxEventsPerDay d =
      (sortEvents (eventsByDateV2 events d)).take maxEventsPerDay ∧
    (dayEventsV2 events maxEventsPerDay d).Pairwise (fun a b => lessEvent b a = false) ∧
    (sortEvents (eventsByDateV2 events d)).Pairwise (fun a b => lessEvent b a = false) ∧
    (∀ e : Event,
      (sortEvents (eventsByDateV2 events d)).filter (fun u => eqvEvent u e) =
        (eventsByDateV2 events d).filter (fun u => eqvEvent u e)) := by
  have hslen : (sortEvents (eventsByDateV2 events d)).length =
      (eventsByDateV2 events d).length := sortEvents_length _
  have htake : dayEventsV2 events maxEventsPerDay d =
      (sortEvents (eventsByDateV2 events d)).take maxEventsPerDay := by
    simp only [dayEventsV2]
    split
    case isTrue h => rfl
    case isFalse h => rw [List.take_of_length_le (by omega)]
  have hsorted : (sortEvents (eventsByDateV2 events d)).Pairwise
      (fun a b => lessEvent b a = false) := by
    rw [sortEvents_small _ hsmall]
    exact GoSort.insertionSortList_pairwise lessEvent lessEvent_trans_neg lessEvent_asym _
  refine ⟨htake, ?_, hsorted, ?_⟩
  · rw [htake]
    exact List.Pairwise.sublist (List.take_sublist _ _) hsorted
  · intro e
    rw [sortEvents_small _ hsmall]
    exact GoSort.insertionSortList_filter lessEvent _
      (fun u v hu hv => eqvEvent_pair_not_less e u v hu hv) _

/-- A three-event bucket with a tie between the two timed events. -/
def smallTieEvents : List Event :=
  [⟨"t1", "", "", ⟨0, 100⟩, ⟨0, 200⟩, false, ""⟩,
   ⟨"t2", "", "", ⟨0, 100⟩, ⟨0, 200⟩, false, ""⟩,
   ⟨"allday", "", "", ⟨0, 0⟩, ⟨0, 0⟩, true, ""⟩]

/-- Witness for C5 (amended) at a concrete 3-event bucket with a tie. -/
theorem c5_witness :
    (eventsByDateV2 smallTieEvents 0).length ≤ 12 ∧
    (dayEventsV2 smallTieEvents 10 0).Pairwise (fun a b => lessEvent b a = false) :=
  ⟨by decide, (c5_sorted_stable_small smallTieEvents 10 0 (by decide)).2.1⟩

/-- The descending scan of `truncateText` returns the longest prefix length in
`[1, i]` whose truncation fits, and the bare ellipsis when none fits. -/
theorem truncScan_spec (m : List Char → ℚ) (text : List Char) (w : ℚ) :
    ∀ i : Nat,
      (∃ k, 1 ≤ k ∧ k ≤ i ∧ truncScan m text w i = text.take k ++ dots ∧
        m (text.take k ++ dots) ≤ w ∧
        ∀ j, k < j → j ≤ i → ¬ m (text.take j ++ dots) ≤ w) ∨
      (truncScan m text w i = dots ∧
        ∀ j, 1 ≤ j → j ≤ i → ¬ m (text.take j ++ dots) ≤ w) := by
  intro i
  induction i with
  | zero =>
    right
    refine ⟨rfl, ?_⟩
    intro j h1 h2
    omega
  | succ i ih =>
    rw [truncScan]
    split
    case isTrue h =>
      left
      refine ⟨i + 1, by omega, Nat.le_refl _, rfl, h, ?_⟩
      intro j hj1 hj2
      omega
    case isFalse h =>
      rcases ih with ⟨k, hk1, hk2, heq, hle, hmax⟩ | ⟨heq, hnone⟩
      · left
        refine ⟨k, hk1, by omega, heq, hle, ?_⟩
        intro j hj1 hj2
        by_cases hji : j = i + 1
        · subst hji
          exact h
        · exact hmax j hj1 (by omega)
      · right
        refine ⟨heq, ?_⟩
        intro j hj1 hj2
        by_cases hji : j = i + 1
        · subst hji
          exact h
        · exact hnone j hj1 (by omega)

/-- C7: for every string and every available width at least the ellipsis
width (with every nonempty prefix adding positive width, as font metrics do),
the truncation result measures within the width; a string that fits is
returned unchanged; and a string that does not fit becomes the longest prefix
plus ellipsis that fits, or the bare ellipsis when no prefix fits. -/
theorem c7_truncate_spec (m : List Char → ℚ) (text : List Char) (w : ℚ)
    (hw : m dots ≤ w)
    (hpos : ∀ p : List Char, p ≠ [] → m dots < m (p ++ dots)) :
    m (truncateText m text w) ≤ w ∧
    (m text ≤ w → truncateText m text w = text) ∧
    (¬ m text ≤ w →
      (∃ i, 1 ≤ i ∧ i ≤ text.length ∧ truncateText m text w = text.take i ++ dots ∧
        m (text.take i ++ dots) ≤ w ∧
        ∀ j, i < j → j ≤ text.length → ¬ m (text.take j ++ dots) ≤ w) ∨
      (truncateText m text w = dots ∧
        ∀ j, 1 ≤ j → j ≤ text.length → ¬ m (text.take j ++ dots) ≤ w)) := by
  by_cases h1 : m text ≤ w
  · rw [truncateText, if_pos h1]
    exact ⟨h1, fun _ => rfl, fun hc => absurd h1 hc⟩
  · by_cases h2 : w ≤ m dots
    · rw [truncateText, if_neg h1, if_pos h2]
      refine ⟨hw, fun hcon => absurd hcon h1, fun _ => Or.inr ⟨rfl, ?_⟩⟩
      intro j hj1 hj2
      have htne : text.take j ≠ [] := by
        intro hnil
        have hl := congrArg List.length hnil
        rw [List.length_take] at hl
        simp only [List.length_nil] at hl
        omega
      have hlt := hpos (text.take j) htne
      intro hle
      linarith
    · rw [truncateText, if_neg h1, if_neg h2]
      have hscan := truncScan_spec m text w text.length
      refine ⟨?_, fun hcon => absurd hcon h1, fun _ => hscan⟩
      rcases hscan with ⟨k, _, _, heq, hle, _⟩ | ⟨heq, _⟩
      · rw [heq]
        exact hle
      · rw [heq]
        exact hw

/-- The length measure used by C7's witness: every atom one unit wide. -/
def mLen : List Char → ℚ := fun l => (l.length : ℚ)

/-- The five-atom string of C7's witness. -/
def c7Text : List Char := ['a', 'b', 'c', 'd', 'e']

/-- Witness for C7: with unit widths, a 5-atom string and width 4, the
hypotheses hold and the truncation fits the width. -/
theorem c7_witness : mLen dots ≤ 4 ∧ mLen (truncateText mLen c7Text 4) ≤ 4 := by
  have hw : mLen dots ≤ 4 := by norm_num [mLen, dots]
  have hpos : ∀ p : List Char, p ≠ [] → mLen dots < mLen (p ++ dots) := by
    intro p hp
    have h3 : 1 ≤ p.length := List.length_pos.mpr hp
    simp only [mLen, dots, List.length_append, List.length_cons, List.length_nil]
    have : ((0 + 1 + 1 + 1 : Nat) : ℚ) < ((p.length + (0 + 1 + 1 + 1) : Nat) : ℚ) := by
      exact_mod_cast by omega
    exact_mod_cast this
  exact ⟨hw, (c7_truncate_spec mLen c7Text 4 hw hpos).1⟩

/-- C8: `truncateText` is idempotent — truncating an already-truncated string
at the same width returns it unchanged. -/
theorem c8_truncate_idempotent (m : List Char → ℚ) (text : List Char) (w : ℚ) :
    truncateText m (truncateText m text w) w = truncateText m text w := by
  by_cases h1 : m text ≤ w
  · have hin : truncateText m text w = text := by rw [truncateText, if_pos h1]
    rw [hin]
    exact hin
  · by_cases h2 : w ≤ m dots
    · have hin : truncateText m text w = dots := by rw [truncateText, if_neg h1, if_pos h2]
      rw [hin]
      by_cases h3 : m dots ≤ w
      · rw [truncateText, if_pos h3]
      · rw [truncateText, if_neg h3, if_pos h2]
    · have hin : truncateText m text w = truncScan m text w text.length := by
        rw [truncateText, if_neg h1, if_neg h2]
      rcases truncScan_spec m text w text.length with ⟨k, _, _, heq, hle, _⟩ | ⟨heq, _⟩
      · rw [hin, heq, truncateText, if_pos hle]
      · rw [hin, heq, truncateText, if_pos (le_of_not_le h2)]

/-- A 2-day all-day event (provider end day 3, exclusive): the second variant
buckets it under days 1 and 2, the first variant only under day 1. -/
def c10Event : Event := ⟨"conf", "", "", ⟨1, 0⟩, ⟨3, 0⟩, true, ""⟩

/-- A concrete calendar context for C10: the month starts on day 1 (a Monday
with the Sunday-0 epoch) and has 28 days, so the grid is exactly days 1–28. -/
def c10Cal : CalendarCtx := ⟨1, 28, "M", 2024, fun _ => 1, fun _ => "", fun _ => ""⟩

/-- Counterexample to C10 as stated: on the same inputs with one 2-day all-day
event, the two `PrepareMonthData` variants disagree (already on the day-2
bucket), so they are not extensionally equal even up to the `IsPast` field
that only the second variant carries. -/
theorem c10_counterexample :
    eventsByDateV1 [c10Event] 2 = [] ∧
    eventsByDateV2 [c10Event] 2 = [c10Event] ∧
    prepareMonthDataV1 c10Cal ⟨1, 0⟩ 100 100 none [c10Event] 10 ≠
      (prepareMonthDataV2 c10Cal ⟨1, 0⟩ 100 100 none [c10Event] 10).toV1 := by
  refine ⟨by decide, by decide, by decide⟩

/-- C10 (amended): the two `PrepareMonthData` variants produce the same weeks
of day data — up to the `IsPast` field that only the second variant's
`DayData` carries — whenever every event occupies a single calendar day
(corrected end date equal to the start date); they diverge on any event
spanning several dates, which the first variant buckets only under its start
date. -/
theorem c10_variants_agree_single_day (cal : CalendarCtx) (now : GoTime)
    (width height : Int) (wd : Option Forecast) (events : List Event)
    (maxEventsPerDay : Nat)
    (hsingle : ∀ e ∈ events, eventEndDateCorrected e = e.start.day) :
    prepareMonthDataV1 cal now width height wd events maxEventsPerDay =
      (prepareMonthDataV2 cal now width height wd events maxEventsPerDay).toV1 := by
  have hbucket : ∀ d : Int, eventsByDateV1 events d = eventsByDateV2 events d := by
    intro d
    rw [eventsByDateV1, eventsByDateV2]
    apply List.filter_congr
    intro e he
    rw [hsingle e he]
    rw [Bool.eq_iff_iff]
    simp only [beq_iff_eq, decide_eq_true_eq]
    omega
  have hday : ∀ d : Int, buildDayV1 cal now wd events maxEventsPerDay d =
      DayDataV2.toV1 (buildDayV2 cal now wd events maxEventsPerDay d) := by
    intro d
    rw [buildDayV1, buildDayV2, DayDataV2.toV1]
    simp only [dayEventsV1, dayEventsV2, hbucket d]
  rw [prepareMonthDataV1, prepareMonthDataV2, TemplateDataV2.toV1]
  have hweeks : buildWeeksWith (buildDayV1 cal now wd events maxEventsPerDay)
      (gridEnd (cal.firstOfMonth + (cal.monthLen : Int) - 1)) (gridStart cal.firstOfMonth) =
    (buildWeeksWith (buildDayV2 cal now wd events maxEventsPerDay)
      (gridEnd (cal.firstOfMonth + (cal.monthLen : Int) - 1))
      (gridStart cal.firstOfMonth)).map (List.map DayDataV2.toV1) := by
    rw [← buildWeeksWith_comp (buildDayV2 cal now wd events maxEventsPerDay)
      DayDataV2.toV1 _ _]
    exact congrArg (fun f => buildWeeksWith f _ _) (funext hday)
  rw [hweeks]

/-- A single-day timed event for C10's witness. -/
def c10Single : Event := ⟨"x", "", "", ⟨2, 600⟩, ⟨2, 900⟩, false, ""⟩

/-- Witness for C10 (amended) at a concrete single-day event. -/
theorem c10_witness :
    (∀ e ∈ [c10Single], eventEndDateCorrected e = e.start.day) ∧
    prepareMonthDataV1 c10Cal ⟨1, 0⟩ 100 100 none [c10Single] 10 =
      (prepareMonthDataV2 c10Cal ⟨1, 0⟩ 100 100 none [c10Single] 10).toV1 :=
  ⟨by decide,
    c10_variants_agree_single_day c10Cal ⟨1, 0⟩ 100 100 none [c10Single] 10 (by decide)⟩
